import Mathlib

/-!
Shallow embedding of the aapt2 resource-compiler core
(`tools/aapt2/compile/Compile.cpp`).

Strings are modelled as `List Char`.  External library components
(XML parser, PNG codec, protobuf serialization, the archive writer's
I/O success, `ConfigDescription::parse`, ...) are modelled as fields of
an `Env` record: the theorems quantify over them, since the compiler
core treats them as opaque collaborators.  What is embedded faithfully
from the source is everything `Compile.cpp` itself computes: path
classification, entry-name construction, parser-option computation,
the 9-patch border strip, the payload selection rule, the envelope
structure of each archive entry, and the driver's dispatch and error
aggregation.
-/

namespace aapt

/-- Strings, as lists of characters. -/
abbrev Str : Type := List Char

/-- Conversion from Lean string literals. -/
def str (s : String) : Str := s.toList

/-- The platform directory separator (`file::sDirSep`); `/` on the
compilation host. -/
def dirSep : Char := '/'

/-- `util::split(str, sep)`: split on every occurrence of `sep`,
keeping empty pieces (the C++ version emits a piece between every two
separators and at both ends). -/
def splitSep (sep : Char) : List Char → List (List Char)
  | [] => [[]]
  | c :: rest =>
    match splitSep sep rest with
    | [] => [[]]
    | p :: ps => if c = sep then [] :: p :: ps else (c :: p) :: ps

/-- `s.find(c)` followed by the two `substr` calls: split at the FIRST
occurrence of `c`, returning the part before and the part after; `none`
when `c` does not occur (`npos`). -/
def splitFirst (c : Char) : List Char → Option (List Char × List Char)
  | [] => none
  | x :: xs =>
    if x = c then some ([], xs)
    else (splitFirst c xs).map (fun p => (x :: p.1, p.2))

/-- `std::string::find(needle) != npos`: substring containment. -/
def containsSub (needle : Str) : List Char → Bool
  | [] => List.isEmpty needle
  | c :: rest => List.isPrefixOf needle (c :: rest) || containsSub needle rest

/-- `ResourcePathData` (Compile.cpp).  The parsed `ConfigDescription`
is external state derived from `configStr`; only the raw `configStr`
is observable to the code under verification, so the parsed form is
not carried. -/
structure ResourcePathData where
  source : Str
  resourceDir : Str
  name : Str
  extension : Str
  configStr : Str
deriving DecidableEq

/-- `extractResourcePathData` (Compile.cpp lines 69-108).
`parseConfig` models `ConfigDescription::parse` (external): it reports
whether the qualifier segment parses. -/
def extractResourcePathData (parseConfig : Str → Bool) (path : Str) :
    Option ResourcePathData :=
  match (splitSep dirSep path).reverse with
  | filename :: dir :: _ =>
    let nameExt : Str × Str :=
      match splitFirst '.' filename with
      | some (n, e) => (n, e)
      | none => (filename, [])
    match splitFirst '-' dir with
    | some (typeDir, configStr) =>
      if parseConfig configStr then
        some ⟨path, typeDir, nameExt.1, nameExt.2, configStr⟩
      else
        none
    | none => some ⟨path, dir, nameExt.1, nameExt.2, []⟩
  | _ => none

/-- `buildIntermediateFilename` (Compile.cpp lines 118-130):
`resourceDir[-configStr]_name[.extension].flat`. -/
def buildIntermediateFilename (data : ResourcePathData) : Str :=
  data.resourceDir ++
    (if data.configStr = ([] : Str) then ([] : Str)
     else ('-' :: data.configStr : Str)) ++
    ('_' :: data.name : Str) ++
    (if data.extension = ([] : Str) then ([] : Str)
     else ('.' :: data.extension : Str)) ++
    str ".flat"

/-- Resource-type kinds, as resolved by `parseResourceType`
(ResourceType.cpp, outside this excerpt).  Only the distinction
`raw` / `not raw` / `unknown` is observed by the driver. -/
inductive ResourceType where
  | anim | animator | array | attr | bool_ | color | drawable | font
  | id | integer | interpolator | layout | menu | mipmap | plurals
  | raw | string_ | style | styleable | transition | xml
deriving DecidableEq

/-- Modelled from the spec: `parseResourceType` is a fixed table lookup
(its implementation lives outside the excerpt); unknown directory
tokens yield `none` (`InvalidFilePath` downstream).  The driver observes
only whether the result is `some kRaw`, some other type, or `none`. -/
def parseResourceType (s : Str) : Option ResourceType :=
  if s = str "anim" then some .anim
  else if s = str "animator" then some .animator
  else if s = str "array" then some .array
  else if s = str "attr" then some .attr
  else if s = str "bool" then some .bool_
  else if s = str "color" then some .color
  else if s = str "drawable" then some .drawable
  else if s = str "font" then some .font
  else if s = str "id" then some .id
  else if s = str "integer" then some .integer
  else if s = str "interpolator" then some .interpolator
  else if s = str "layout" then some .layout
  else if s = str "menu" then some .menu
  else if s = str "mipmap" then some .mipmap
  else if s = str "plurals" then some .plurals
  else if s = str "raw" then some .raw
  else if s = str "string" then some .string_
  else if s = str "style" then some .style
  else if s = str "styleable" then some .styleable
  else if s = str "transition" then some .transition
  else if s = str "xml" then some .xml
  else none

/-- `ResourceName` as built in Compile.cpp: empty package, the type
resolved from the directory token, and the descriptor's name. -/
structure ResourceName where
  pck : Str
  typ : ResourceType
  entry : Str
deriving DecidableEq

/-- `ResourceFile` metadata attached to non-values outputs. -/
structure ResourceFileDesc where
  name : ResourceName
  configStr : Str
  source : Str
deriving DecidableEq

/-- Opaque token for the external `ResourceTable` state (built by
`ResourceParser`, transformed by external table methods). -/
abbrev ResourceTable : Type := Nat

/-- Opaque token for an external in-memory XML document tree. -/
abbrev XmlTree : Type := Nat

/-- `xml::XmlResource`: a document tree plus its `ResourceFile`
metadata. -/
structure XmlResource where
  file : ResourceFileDesc
  tree : XmlTree
deriving DecidableEq

/-- Opaque token for the external `NinePatch` metadata object. -/
abbrev NinePatch : Type := Nat

/-- Decoded RGBA raster (`Image` from compile/Image.h): a row array of
byte rows, four bytes per pixel. -/
structure Image where
  width : Nat
  height : Nat
  rows : List (List Nat)
deriving DecidableEq

/-- The in-place 9-patch border strip (Compile.cpp lines 544-550):
width and height drop by two; the row array shifts up by one (and is
treated as `height - 2` rows long); each surviving row shifts left by
four bytes (one RGBA pixel) and is treated as `(width - 2) * 4` bytes
long. -/
def stripBorder (img : Image) : Image :=
  { width := img.width - 2
    height := img.height - 2
    rows := ((img.rows.drop 1).take (img.height - 2)).map
      (fun r => (r.drop 4).take ((img.width - 2) * 4)) }

/-- One write made through `CompiledFileOutputStream` (or, for the
values path, directly to the zero-copy stream) while an archive entry
is open.  The byte-level encodings of the records are produced by the
external protobuf stream classes; the entry body is their
concatenation in list order. -/
inductive Chunk where
  | le32 (n : Nat)
  | compiledFile (f : ResourceFileDesc)
  | data (bytes : List Nat)
  | tableStream (bytes : List Nat)
deriving DecidableEq

/-- A finished archive entry: its name and the sequence of writes that
form its body. -/
structure Entry where
  name : Str
  chunks : List Chunk
deriving DecidableEq

/-- `CompileOptions` (Compile.cpp lines 110-116), minus the output
path and resource dir which the modelled fragment does not consult.
`verbose` is the context's verbose flag (set from `-v`). -/
structure CompileOptions where
  pseudolocalize : Bool := false
  legacyMode : Bool := false
  verbose : Bool := false
deriving DecidableEq

/-- `ResourceParserOptions` as configured by `compileTable`. -/
structure ParserOptions where
  errorOnPositionalArguments : Bool
  translatable : Bool
deriving DecidableEq

/-- The external collaborators of the compiler core.  Each field is an
opaque deterministic function standing for a library call; failure is
`none`/`false`. -/
structure Env where
  /-- `ConfigDescription::parse` on a qualifier segment. -/
  parseConfig : Str → Bool
  /-- `std::ifstream` / `android::base::ReadFileToString`: map a source
  path to its content. -/
  readFile : Str → Option Str
  /-- `ResourceParser::parse`: content, config string, options ↦ table. -/
  parseValues : Str → Str → ParserOptions → Option ResourceTable
  /-- `PseudolocaleGenerator::consume`. -/
  pseudolocalize : ResourceTable → Option ResourceTable
  /-- `ResourceTable::createPackage` with the compilation package. -/
  createPackage : ResourceTable → ResourceTable
  /-- The package-ID assignment loop over `table.packages`. -/
  assignIds : ResourceTable → ResourceTable
  /-- `serializeTableToPb` + `SerializeToZeroCopyStream`: the serialized
  protobuf resource-table stream. -/
  serializeTable : ResourceTable → List Nat
  /-- `xml::inflate` on file content. -/
  inflateXml : Str → Option XmlTree
  /-- `XmlIdCollector::consume` (annotates the document). -/
  collectIds : XmlResource → Option XmlResource
  /-- `InlineXmlFormatParser::consume`: the transformed primary document
  and the extracted inline sub-documents, in extraction order. -/
  extractInline : XmlResource → Option (XmlResource × List XmlResource)
  /-- `XmlFlattener::consume` with `keepRawValues`: flattened binary
  XML payload. -/
  flattenXml : XmlResource → Option (List Nat)
  /-- `readPng` through a fresh `PngChunkFilter` over the content. -/
  readPng : Str → Option Image
  /-- The full output of a `PngChunkFilter` pass over the content; its
  length is the filter's `ByteCount()`. -/
  pngFilter : Str → List Nat
  /-- `NinePatch::create` from the full-bordered rows. -/
  ninePatchCreate : Image → Option NinePatch
  /-- `writePng`: re-encode the raster (embedding the 9-patch chunk when
  present) into a fresh PNG buffer. -/
  writePng : Image → Option NinePatch → Option (List Nat)
  /-- The legacy `Png::process` cruncher, run only under `-v`. -/
  legacyProcess : Str → Option (List Nat)
  /-- `file::mmapPath`: the mapped bytes of a source path. -/
  mmapFile : Str → Option (List Nat)
  /-- Success of startEntry / stream writes / finishEntry for a given
  entry name (the archive writer is external). -/
  archiveOk : Str → Bool
  /-- Success of `createDirectoryArchiveWriter` /
  `createZipFileArchiveWriter`. -/
  createWriterOk : Bool

/-- The `ResourceParserOptions` computed by `compileTable`
(lines 207-213): positional arguments error unless legacy mode;
translatable defaults to `false` exactly when the descriptor's `name`
contains `donottranslate`. -/
def valuesParserOptions (options : CompileOptions)
    (pathData : ResourcePathData) : ParserOptions :=
  { errorOnPositionalArguments := !options.legacyMode
    translatable := !containsSub (str "donottranslate") pathData.name }

/-- `compileTable` (lines 191-276): parse the values XML into a table,
optionally pseudolocalize, ensure the compilation package and assign
package IDs, then write one entry whose body is the serialized
protobuf table stream written directly to the adaptor. -/
def compileTable (env : Env) (options : CompileOptions)
    (pathData : ResourcePathData) (outputPath : Str) : Option Entry := do
  let content ← env.readFile pathData.source
  let table ← env.parseValues content pathData.configStr
    (valuesParserOptions options pathData)
  let table ← if options.pseudolocalize then env.pseudolocalize table
              else some table
  let table := env.assignIds (env.createPackage table)
  if env.archiveOk outputPath then
    some { name := outputPath
           chunks := [Chunk.tableStream (env.serializeTable table)] }
  else
    none

/-- `writeHeaderAndBufferToWriter` / `writeHeaderAndMmapToWriter`
(lines 278-358): start an entry, write little-endian 1, one serialized
file descriptor, then the payload, and finish the entry.  The two
source variants differ only in the payload's origin (buffer vs mmap). -/
def writeHeaderAndBufferToWriter (env : Env) (outputPath : Str)
    (file : ResourceFileDesc) (buffer : List Nat) : Option Entry :=
  if env.archiveOk outputPath then
    some { name := outputPath
           chunks := [Chunk.le32 1, Chunk.compiledFile file,
                      Chunk.data buffer] }
  else
    none

/-- `flattenXmlToOutStream` iterated over a document list: each
document contributes its serialized file descriptor followed by its
flattened payload; a flattener failure fails the whole entry. -/
def flattenDocsToChunks (env : Env) :
    List XmlResource → Option (List Chunk)
  | [] => some []
  | doc :: docs => do
    let payload ← env.flattenXml doc
    let rest ← flattenDocsToChunks env docs
    some (Chunk.compiledFile doc.file :: Chunk.data payload :: rest)

/-- The `ResourceFile` metadata built by `compileXml` / `compilePng` /
`compileFile`: empty package, type resolved from the directory token
(the driver guarantees resolution succeeds before these are called;
`raw` is the don't-care default here), the descriptor's name. -/
def resFileFor (pathData : ResourcePathData) : ResourceFileDesc :=
  { name := { pck := []
              typ := (parseResourceType pathData.resourceDir).getD
                ResourceType.raw
              entry := pathData.name }
    configStr := pathData.configStr
    source := pathData.source }

/-- `compileXml` (lines 385-469): inflate, annotate, collect IDs,
extract inline `<aapt:attr>` sub-documents, then write one entry:
little-endian `1 + #subdocuments`, the primary document's
(descriptor, payload) pair, then each extracted sub-document's pair in
extraction-list order. -/
def compileXml (env : Env) (options : CompileOptions)
    (pathData : ResourcePathData) (outputPath : Str) : Option Entry := do
  let content ← env.readFile pathData.source
  let tree ← env.inflateXml content
  let xmlRes : XmlResource := { file := resFileFor pathData, tree := tree }
  let xmlRes ← env.collectIds xmlRes
  let extracted ← env.extractInline xmlRes
  if env.archiveOk outputPath then do
    let pairs ← flattenDocsToChunks env (extracted.1 :: extracted.2)
    some { name := outputPath
           chunks := Chunk.le32 (1 + extracted.2.length) :: pairs }
  else
    none

/-- The 9-patch staging step of `compilePng` (lines 529-556): when the
extension is `9.png`, build the 9-patch from the border (failure fails
the input) and strip the border; otherwise pass the raster through
with no 9-patch. -/
def stagePng (env : Env) (extension : Str) (image : Image) :
    Option (Image × Option NinePatch) :=
  if extension = str "9.png" then
    match env.ninePatchCreate image with
    | some np => some (stripBorder image, some np)
    | none => none
  else
    some (image, none)

/-- `compilePng` (lines 494-609): read content, decode through a chunk
filter, build and strip the 9-patch when the extension is `9.png`,
re-encode, pick re-encoded vs filtered-original by size (9-patch always
re-encoded), optionally run the legacy cruncher under verbose, and
envelope the chosen payload. -/
def compilePng (env : Env) (options : CompileOptions)
    (pathData : ResourcePathData) (outputPath : Str) : Option Entry := do
  let content ← env.readFile pathData.source
  let image ← env.readPng content
  let stage ← stagePng env pathData.extension image
  let crunched ← env.writePng stage.1 stage.2
  let buffer :=
    if stage.2.isSome = true ∨
        crunched.length ≤ (env.pngFilter content).length then
      crunched
    else
      env.pngFilter content
  let _ ← if options.verbose then env.legacyProcess content else some []
  writeHeaderAndBufferToWriter env outputPath (resFileFor pathData) buffer

/-- `compileFile` (lines 611-638): mmap the file and envelope the
mapped bytes verbatim. -/
def compileFile (env : Env) (options : CompileOptions)
    (pathData : ResourcePathData) (outputPath : Str) : Option Entry := do
  let mapped ← env.mmapFile pathData.source
  writeHeaderAndBufferToWriter env outputPath (resFileFor pathData) mapped

/-- The driver's per-input dispatch (lines 751-793): values inputs get
their extension rewritten to `arsc` and go to the table compiler; other
inputs resolve their type (unknown → `InvalidFilePath`, input fails),
`raw` goes to the file compiler, `xml` to the XML compiler, `png` and
`9.png` to the PNG compiler, everything else to the file compiler. -/
def runInput (env : Env) (options : CompileOptions)
    (pathData : ResourcePathData) : Option Entry :=
  if pathData.resourceDir = str "values" then
    let pd := { pathData with extension := str "arsc" }
    compileTable env options pd (buildIntermediateFilename pd)
  else
    let outputFilename := buildIntermediateFilename pathData
    match parseResourceType pathData.resourceDir with
    | some ty =>
      if ty = ResourceType.raw then
        compileFile env options pathData outputFilename
      else if pathData.extension = str "xml" then
        compileXml env options pathData outputFilename
      else if pathData.extension = str "png" ∨
          pathData.extension = str "9.png" then
        compilePng env options pathData outputFilename
      else
        compileFile env options pathData outputFilename
    | none => none

/-- The driver loop (lines 744-794): every input is run, in order; a
failure sets the sticky `error` flag and the loop continues.  Returns
the flag and the entries actually written. -/
def compileAll (env : Env) (options : CompileOptions) :
    List ResourcePathData → Bool × List Entry
  | [] => (false, [])
  | pd :: rest =>
    let r := runInput env options pd
    let next := compileAll env options rest
    (r.isNone || next.1, r.toList ++ next.2)

/-- The explicit-mode classification loop (lines 721-734): classify
each argument; any classification failure makes the whole phase fail. -/
def classifyArgs (parseConfig : Str → Bool) :
    List Str → Option (List ResourcePathData)
  | [] => some []
  | arg :: args =>
    match extractResourcePathData parseConfig arg with
    | some pd => (classifyArgs parseConfig args).map (fun rest => pd :: rest)
    | none => none

/-- `compile` in explicit mode (no `--dir`), after flag parsing:
classify all arguments (abort with exit 1 and no entries on any
failure), create the directory archive writer (abort on failure), run
the batch, and exit 1 exactly when the sticky error flag is set. -/
def compileExplicit (env : Env) (options : CompileOptions)
    (args : List Str) : Nat × List Entry :=
  match classifyArgs env.parseConfig args with
  | none => (1, [])
  | some inputs =>
    if env.createWriterOk then
      let result := compileAll env options inputs
      (if result.1 then 1 else 0, result.2)
    else
      (1, [])

/-! ### Concrete environments used to instantiate the theorems -/

/-- A concrete environment in which every external collaborator
succeeds (and the legacy cruncher fails, which only matters under
verbose). -/
def testEnv : Env :=
  { parseConfig := fun _ => true
    readFile := fun _ => some []
    parseValues := fun _ _ _ => some 0
    pseudolocalize := fun t => some t
    createPackage := fun t => t
    assignIds := fun t => t
    serializeTable := fun _ => [7]
    inflateXml := fun _ => some 0
    collectIds := fun x => some x
    extractInline := fun x => some (x, [])
    flattenXml := fun _ => some [1]
    readPng := fun _ => some ⟨3, 3, [[0, 0, 0, 0], [0, 0, 0, 0], [0, 0, 0, 0]]⟩
    pngFilter := fun _ => [9, 9]
    ninePatchCreate := fun _ => some 0
    writePng := fun _ _ => some [5]
    legacyProcess := fun _ => none
    mmapFile := fun _ => some [1, 2]
    archiveOk := fun _ => true
    createWriterOk := true }

/-- `testEnv` with one extracted inline sub-document per XML input. -/
def testEnvXml : Env :=
  { testEnv with extractInline := fun x => some (x, [{ file := x.file, tree := 42 }]) }

/-- `testEnv` with one unreadable source file. -/
def testEnvBadRead : Env :=
  { testEnv with readFile := fun s =>
      if s = (str "res/values/bad.xml") then none else some [] }

/-! ### Lemmas about the splitting primitives -/

theorem splitSep_ne_nil (sep : Char) (l : List Char) :
    splitSep sep l ≠ [] := by
  induction l with
  | nil => simp [splitSep]
  | cons c rest ih =>
    simp only [splitSep]
    rcases h : splitSep sep rest with _ | ⟨p, ps⟩
    · simp
    · by_cases hc : c = sep <;> simp [hc]

theorem splitSep_no_sep (sep : Char) (l : List Char) (h : sep ∉ l) :
    splitSep sep l = [l] := by
  induction l with
  | nil => rfl
  | cons c rest ih =>
    have hc : ¬ c = sep := fun hcc => h (by simp [hcc])
    have hr : sep ∉ rest := fun hm => h (List.mem_cons_of_mem _ hm)
    simp only [splitSep, ih hr]
    simp [hc]

theorem splitSep_append (sep : Char) (a b : List Char) (h : sep ∉ a) :
    splitSep sep (a ++ sep :: b) = a :: splitSep sep b := by
  induction a with
  | nil =>
    simp only [List.nil_append, splitSep]
    rcases hb : splitSep sep b with _ | ⟨p, ps⟩
    · exact absurd hb (splitSep_ne_nil sep b)
    · simp
  | cons c rest ih =>
    have hc : ¬ c = sep := fun hcc => h (by simp [hcc])
    have hr : sep ∉ rest := fun hm => h (List.mem_cons_of_mem _ hm)
    simp only [List.cons_append, splitSep, List.append_eq]
    rw [ih hr]
    simp [hc]

theorem splitFirst_none (c : Char) (l : List Char) (h : c ∉ l) :
    splitFirst c l = none := by
  induction l with
  | nil => rfl
  | cons x rest ih =>
    have hx : ¬ x = c := fun hxc => h (by simp [hxc])
    have hr : c ∉ rest := fun hm => h (List.mem_cons_of_mem _ hm)
    simp [splitFirst, hx, ih hr]

theorem splitFirst_append (c : Char) (a b : List Char) (h : c ∉ a) :
    splitFirst c (a ++ c :: b) = some (a, b) := by
  induction a with
  | nil => simp [splitFirst]
  | cons x rest ih =>
    have hx : ¬ x = c := fun hxc => h (by simp [hxc])
    have hr : c ∉ rest := fun hm => h (List.mem_cons_of_mem _ hm)
    simp [splitFirst, hx, ih hr]

theorem splitFirst_eq_some (c : Char) (l a b : List Char)
    (h : splitFirst c l = some (a, b)) :
    l = a ++ c :: b ∧ c ∉ a := by
  induction l generalizing a b with
  | nil => exact absurd h (by simp [splitFirst])
  | cons x rest ih =>
    by_cases hx : x = c
    · simp only [splitFirst, if_pos hx, Option.some_inj, Prod.mk.injEq] at h
      obtain ⟨ha, hb⟩ := h
      subst hx; subst hb
      simp [← ha]
    · simp only [splitFirst, if_neg hx, Option.map_eq_some'] at h
      obtain ⟨⟨p, q⟩, hpq, heq⟩ := h
      simp only [Prod.mk.injEq] at heq
      obtain ⟨ha, hb⟩ := heq
      obtain ⟨hl, hnot⟩ := ih p q hpq
      subst hb
      constructor
      · simp [← ha, hl]
      · intro hm
        rcases List.mem_cons.mp (ha ▸ hm) with h1 | h2
        · exact hx h1.symm
        · exact hnot h2

theorem splitFirst_isSome_of_mem (c : Char) (l : List Char) (h : c ∈ l) :
    (splitFirst c l).isSome = true := by
  induction l with
  | nil => simp at h
  | cons x rest ih =>
    by_cases hx : x = c
    · simp [splitFirst, hx]
    · have hr : c ∈ rest := by
        rcases List.mem_cons.mp h with h1 | h2
        · exact absurd h1.symm hx
        · exact h2
      rcases hs : splitFirst c rest with _ | p
      · rw [hs] at ih
        simp [hr] at ih
      · simp [splitFirst, hx, hs]

/-! ### Claims -/

/-- C4: for every path whose last component contains a dot, the
classifier splits the filename at the FIRST dot: the descriptor's
`name` is the prefix before the first dot (so it contains no dot) and
`extension` is everything after it. -/
theorem c4_first_dot_split (parseConfig : Str → Bool) (path : Str)
    (pd : ResourcePathData) (filename dir : Str) (rest : List Str)
    (hsplit : (splitSep dirSep path).reverse = filename :: dir :: rest)
    (hdot : '.' ∈ filename)
    (hpd : extractResourcePathData parseConfig path = some pd) :
    filename = pd.name ++ '.' :: pd.extension ∧ '.' ∉ pd.name := by
  have hisSome := splitFirst_isSome_of_mem '.' filename hdot
  rcases hs : splitFirst '.' filename with _ | ⟨n, e⟩
  · rw [hs] at hisSome
    simp at hisSome
  · have hchar := splitFirst_eq_some '.' filename n e hs
    simp only [extractResourcePathData, hsplit, hs] at hpd
    rcases hdash : splitFirst '-' dir with _ | ⟨t, q⟩ <;>
        rw [hdash] at hpd
    · simp only [Option.some_inj] at hpd
      rw [← hpd]
      exact hchar
    · by_cases hcfg : parseConfig q = true
      · simp only [hcfg, if_true, Option.some_inj] at hpd
        rw [← hpd]
        exact hchar
      · simp [hcfg] at hpd

/-- Witness for C4 at the spec's own example:
`res/drawable/foo.9.png` yields name `foo`, extension `9.png`. -/
theorem c4_first_dot_split_witness :
    str "foo.9.png" = str "foo" ++ '.' :: str "9.png" ∧
      '.' ∉ str "foo" :=
  c4_first_dot_split (fun _ => false) (str "res/drawable/foo.9.png")
    ⟨str "res/drawable/foo.9.png", str "drawable", str "foo",
      str "9.png", []⟩
    (str "foo.9.png") (str "drawable") [str "res"]
    (by decide) (by decide) (by decide)

/-- C9: composing classification with entry-name construction on a
well-formed `res/type-qual/name.ext` path yields
`type-qual_name.ext.flat`, and on a path with no qualifier,
`res/type/name.ext`, it yields `type_name.ext.flat` (no dash before
the underscore). -/
theorem c9_entry_name_round_trip (parseConfig : Str → Bool)
    (t q n e : Str)
    (hts : dirSep ∉ t) (hqs : dirSep ∉ q) (hns : dirSep ∉ n)
    (hes : dirSep ∉ e) (htd : '-' ∉ t) (hnd : '.' ∉ n)
    (hq : q ≠ []) (he : e ≠ []) (hcfg : parseConfig q = true) :
    ((extractResourcePathData parseConfig
        (str "res" ++ dirSep :: ((t ++ '-' :: q) ++
          dirSep :: (n ++ '.' :: e)))).map buildIntermediateFilename =
      some (t ++ ('-' :: q) ++ ('_' :: n) ++ ('.' :: e) ++
        str ".flat")) ∧
    ((extractResourcePathData parseConfig
        (str "res" ++ dirSep :: (t ++
          dirSep :: (n ++ '.' :: e)))).map buildIntermediateFilename =
      some (t ++ ('_' :: n) ++ ('.' :: e) ++ str ".flat")) := by
  have hres : dirSep ∉ str "res" := by decide
  have hfn : dirSep ∉ n ++ '.' :: e := by
    intro hm
    rcases List.mem_append.mp hm with h1 | h2
    · exact hns h1
    · rcases List.mem_cons.mp h2 with h3 | h4
      · exact absurd h3 (by decide)
      · exact hes h4
  have hfsplit : splitFirst '.' (n ++ '.' :: e) = some (n, e) :=
    splitFirst_append '.' n e hnd
  constructor
  · have hdir : dirSep ∉ t ++ '-' :: q := by
      intro hm
      rcases List.mem_append.mp hm with h1 | h2
      · exact hts h1
      · rcases List.mem_cons.mp h2 with h3 | h4
        · exact absurd h3 (by decide)
        · exact hqs h4
    have h1 : splitSep dirSep (str "res" ++ dirSep :: ((t ++ '-' :: q) ++
        dirSep :: (n ++ '.' :: e))) =
        str "res" :: (t ++ '-' :: q) :: [n ++ '.' :: e] := by
      rw [splitSep_append dirSep (str "res") _ hres,
        splitSep_append dirSep (t ++ '-' :: q) _ hdir,
        splitSep_no_sep dirSep _ hfn]
    simp only [extractResourcePathData, h1, List.reverse_cons,
      List.reverse_nil, List.nil_append, List.cons_append, hfsplit,
      splitFirst_append '-' t q htd, hcfg, if_true, Option.map_some']
    simp only [buildIntermediateFilename, Option.some_inj]
    simp [hq, he]
  · have h1 : splitSep dirSep (str "res" ++ dirSep :: (t ++
        dirSep :: (n ++ '.' :: e))) =
        str "res" :: t :: [n ++ '.' :: e] := by
      rw [splitSep_append dirSep (str "res") _ hres,
        splitSep_append dirSep t _ hts,
        splitSep_no_sep dirSep _ hfn]
    simp only [extractResourcePathData, h1, List.reverse_cons,
      List.reverse_nil, List.nil_append, List.cons_append, hfsplit,
      splitFirst_none '-' t htd, Option.map_some']
    simp only [buildIntermediateFilename, Option.some_inj]
    simp [he]

/-- Witness for C9 at `res/layout-land/main.xml` and
`res/layout/main.xml`. -/
theorem c9_entry_name_round_trip_witness :
    ((extractResourcePathData (fun _ => true)
        (str "res" ++ dirSep :: ((str "layout" ++ '-' :: str "land") ++
          dirSep :: (str "main" ++ '.' :: str "xml")))).map
        buildIntermediateFilename =
      some (str "layout" ++ ('-' :: str "land") ++
        ('_' :: str "main") ++ ('.' :: str "xml") ++ str ".flat")) ∧
    ((extractResourcePathData (fun _ => true)
        (str "res" ++ dirSep :: (str "layout" ++
          dirSep :: (str "main" ++ '.' :: str "xml")))).map
        buildIntermediateFilename =
      some (str "layout" ++ ('_' :: str "main") ++
        ('.' :: str "xml") ++ str ".flat")) :=
  c9_entry_name_round_trip (fun _ => true) (str "layout") (str "land")
    (str "main") (str "xml") (by decide) (by decide) (by decide)
    (by decide) (by decide) (by decide) (by decide) (by decide) rfl

/-- C5 counterexample: the values file `res/values/a.donottranslate.xml`
has a filename that contains the literal substring `donottranslate`,
yet the parser's default translatable flag computed by `compileTable`
is `true` — the code tests the descriptor's `name` (`"a"`, the
filename truncated at its first dot), not the filename. -/
theorem c5_translatable_counterexample :
    containsSub (str "donottranslate") (str "a.donottranslate.xml") = true ∧
    (extractResourcePathData (fun _ => true)
        (str "res/values/a.donottranslate.xml")).map
      (fun pd => (valuesParserOptions {} pd).translatable) = some true := by
  decide

/-- C5 (amended): for every values file, the parser's default
translatable flag is `true` unless the descriptor's `name` — the
filename truncated at its first dot — contains the literal substring
`donottranslate`, in which case it is `false`; `compileTable` hands
exactly these options to the resource parser. -/
theorem c5_translatable_from_name (env : Env) (options : CompileOptions)
    (pathData : ResourcePathData) (outputPath : Str) (e : Entry)
    (content : Str)
    (hread : env.readFile pathData.source = some content)
    (hcomp : compileTable env options pathData outputPath = some e) :
    (valuesParserOptions options pathData).translatable =
      !containsSub (str "donottranslate") pathData.name ∧
    ∃ table, env.parseValues content pathData.configStr
        (valuesParserOptions options pathData) = some table := by
  refine ⟨rfl, ?_⟩
  rcases hp : env.parseValues content pathData.configStr
      (valuesParserOptions options pathData) with _ | table
  · rw [compileTable, hread] at hcomp
    simp [hp] at hcomp
  · exact ⟨table, rfl⟩

/-- Witness for C5 (amended) at a concrete `donottranslate` values
file compiled against `testEnv`. -/
theorem c5_translatable_from_name_witness :
    (valuesParserOptions {}
        ⟨str "s", str "values", str "donottranslate", str "arsc",
          []⟩).translatable =
      !containsSub (str "donottranslate") (str "donottranslate") ∧
    ∃ table, testEnv.parseValues [] []
        (valuesParserOptions {}
          ⟨str "s", str "values", str "donottranslate", str "arsc", []⟩) =
      some table :=
  c5_translatable_from_name testEnv {}
    ⟨str "s", str "values", str "donottranslate", str "arsc", []⟩
    (str "out") ⟨str "out", [Chunk.tableStream [7]]⟩ [] rfl (by decide)

/-- Inversion for `compileTable`: a successful run writes one entry
whose body is exactly the serialized table stream. -/
theorem compileTable_inv (env : Env) (options : CompileOptions)
    (pathData : ResourcePathData) (outputPath : Str) (e : Entry)
    (h : compileTable env options pathData outputPath = some e) :
    env.archiveOk outputPath = true ∧
    ∃ table : ResourceTable,
      e = ⟨outputPath, [Chunk.tableStream (env.serializeTable table)]⟩ := by
  rw [compileTable] at h
  cases hpl : options.pseudolocalize <;> rw [hpl] at h
  · simp only [Bool.false_eq_true, if_false, Option.some_bind,
      Option.bind_eq_bind, Option.bind_eq_some] at h
    obtain ⟨content, hc, t2, ht2, h⟩ := h
    cases hb : env.archiveOk outputPath <;> rw [hb] at h
    · simp at h
    · simp only [if_true] at h
      exact ⟨rfl, env.assignIds (env.createPackage t2),
        by simpa using h.symm⟩
  · simp only [if_true, Option.bind_eq_bind, Option.bind_eq_some] at h
    obtain ⟨content, hc, t1, ht1, t2, ht2, h⟩ := h
    cases hb : env.archiveOk outputPath <;> rw [hb] at h
    · simp at h
    · simp only [if_true] at h
      exact ⟨rfl, env.assignIds (env.createPackage t2),
        by simpa using h.symm⟩

/-- C1: for every input classified under `values`, the driver rewrites
the descriptor's extension to `arsc` before building the entry name,
and the emitted entry body is exactly the serialized protobuf
resource-table stream — no little-endian count prefix and no
compiled-file descriptor record. -/
theorem c1_values_direct_table (env : Env) (options : CompileOptions)
    (pathData : ResourcePathData) (e : Entry)
    (hvals : pathData.resourceDir = str "values")
    (hrun : runInput env options pathData = some e) :
    e.name = buildIntermediateFilename
      { pathData with extension := str "arsc" } ∧
    (∃ table : ResourceTable,
      e.chunks = [Chunk.tableStream (env.serializeTable table)]) ∧
    ∀ c ∈ e.chunks,
      (∀ k, c ≠ Chunk.le32 k) ∧ ∀ f, c ≠ Chunk.compiledFile f := by
  rw [runInput, if_pos hvals] at hrun
  obtain ⟨ha, table, he⟩ := compileTable_inv _ _ _ _ _ hrun
  subst he
  refine ⟨rfl, ⟨table, rfl⟩, ?_⟩
  intro c hc
  simp only [List.mem_singleton] at hc
  subst hc
  exact ⟨fun k => by simp, fun f => by simp⟩

/-- Witness for C1: `res/values/strings.xml` compiled against
`testEnv` emits `values_strings.arsc.flat` with the bare table
stream as body. -/
theorem c1_values_direct_table_witness :
    (Entry.mk (str "values_strings.arsc.flat")
        [Chunk.tableStream [7]]).name =
      buildIntermediateFilename
        { (⟨str "res/values/strings.xml", str "values", str "strings",
            str "xml", []⟩ : ResourcePathData) with
          extension := str "arsc" } ∧
    (∃ table : ResourceTable,
      (Entry.mk (str "values_strings.arsc.flat")
          [Chunk.tableStream [7]]).chunks =
        [Chunk.tableStream (testEnv.serializeTable table)]) ∧
    ∀ c ∈ (Entry.mk (str "values_strings.arsc.flat")
        [Chunk.tableStream [7]]).chunks,
      (∀ k, c ≠ Chunk.le32 k) ∧ ∀ f, c ≠ Chunk.compiledFile f :=
  c1_values_direct_table testEnv {}
    ⟨str "res/values/strings.xml", str "values", str "strings",
      str "xml", []⟩
    (Entry.mk (str "values_strings.arsc.flat") [Chunk.tableStream [7]])
    rfl (by decide)

/-- Structure of the chunk list produced by iterating
`flattenXmlToOutStream`: one (descriptor, payload) pair per document,
in list order. -/
theorem flattenDocsToChunks_spec (env : Env) (docs : List XmlResource)
    (chs : List Chunk) (h : flattenDocsToChunks env docs = some chs) :
    ∃ payloads : List (List Nat),
      payloads.length = docs.length ∧
      chs = (docs.zip payloads).flatMap
        (fun p => [Chunk.compiledFile p.1.file, Chunk.data p.2]) := by
  induction docs generalizing chs with
  | nil =>
    simp only [flattenDocsToChunks, Option.some_inj] at h
    exact ⟨[], rfl, by simp [← h]⟩
  | cons doc docs ih =>
    simp only [flattenDocsToChunks, Option.bind_eq_bind,
      Option.bind_eq_some] at h
    obtain ⟨payload, hp, rest, hrest, h⟩ := h
    obtain ⟨payloads, hlen, hchs⟩ := ih rest hrest
    refine ⟨payload :: payloads, by simp [hlen], ?_⟩
    rw [Option.some_inj] at h
    rw [← h, hchs]
    simp

/-- C3: for every XML input whose inline-fragment extraction yields
`k` sub-documents, the emitted entry begins with little-endian count
`1 + k` and continues with exactly `1 + k` (descriptor, payload)
pairs: the primary document's pair first, then the extracted
sub-documents' pairs in extraction-list order. -/
theorem c3_xml_envelope (env : Env) (options : CompileOptions)
    (pathData : ResourcePathData) (outputPath : Str) (e : Entry)
    (xmlRes0 primary : XmlResource) (subdocs : List XmlResource)
    (content : Str) (tree : XmlTree)
    (hread : env.readFile pathData.source = some content)
    (hinfl : env.inflateXml content = some tree)
    (hcoll : env.collectIds ⟨resFileFor pathData, tree⟩ = some xmlRes0)
    (hext : env.extractInline xmlRes0 = some (primary, subdocs))
    (hcomp : compileXml env options pathData outputPath = some e) :
    ∃ payloads : List (List Nat),
      payloads.length = 1 + subdocs.length ∧
      e.chunks = Chunk.le32 (1 + subdocs.length) ::
        ((primary :: subdocs).zip payloads).flatMap
          (fun p => [Chunk.compiledFile p.1.file, Chunk.data p.2]) := by
  simp only [compileXml, Option.bind_eq_bind, Option.bind_eq_some] at hcomp
  obtain ⟨content2, hc2, tree2, ht2, x2, hx2, ext2, hext2, hcomp⟩ := hcomp
  rw [hread, Option.some_inj] at hc2
  subst hc2
  rw [hinfl, Option.some_inj] at ht2
  subst ht2
  rw [hcoll, Option.some_inj] at hx2
  subst hx2
  rw [hext, Option.some_inj] at hext2
  subst hext2
  cases hb : env.archiveOk outputPath <;> rw [hb] at hcomp
  · simp at hcomp
  · simp only [if_true, Option.bind_eq_bind, Option.bind_eq_some] at hcomp
    obtain ⟨pairs, hpairs, hcomp⟩ := hcomp
    obtain ⟨payloads, hlen, hchs⟩ :=
      flattenDocsToChunks_spec env (primary :: subdocs) pairs hpairs
    refine ⟨payloads, ?_, ?_⟩
    · simp only [List.length_cons] at hlen
      omega
    · rw [Option.some_inj] at hcomp
      rw [← hcomp, hchs]

/-- A classified layout input, used by several witnesses. -/
def pdLayout : ResourcePathData :=
  ⟨str "res/layout/main.xml", str "layout", str "main", str "xml", []⟩

/-- Witness for C3: a layout file with one extracted inline
sub-document compiled against `testEnvXml` yields count 2 and two
pairs, primary first. -/
theorem c3_xml_envelope_witness :
    ∃ payloads : List (List Nat),
      payloads.length = 1 + [(⟨(⟨resFileFor pdLayout, 0⟩ :
          XmlResource).file, 42⟩ : XmlResource)].length ∧
      (Entry.mk (str "layout_main.xml.flat")
          [Chunk.le32 2, Chunk.compiledFile (resFileFor pdLayout),
           Chunk.data [1], Chunk.compiledFile (resFileFor pdLayout),
           Chunk.data [1]]).chunks =
        Chunk.le32 (1 + [(⟨(⟨resFileFor pdLayout, 0⟩ :
            XmlResource).file, 42⟩ : XmlResource)].length) ::
          (((⟨resFileFor pdLayout, 0⟩ : XmlResource) ::
            [(⟨(⟨resFileFor pdLayout, 0⟩ : XmlResource).file, 42⟩ :
              XmlResource)]).zip payloads).flatMap
            (fun p => [Chunk.compiledFile p.1.file, Chunk.data p.2]) :=
  c3_xml_envelope testEnvXml {} pdLayout (str "layout_main.xml.flat")
    (Entry.mk (str "layout_main.xml.flat")
      [Chunk.le32 2, Chunk.compiledFile (resFileFor pdLayout),
       Chunk.data [1], Chunk.compiledFile (resFileFor pdLayout),
       Chunk.data [1]])
    ⟨resFileFor pdLayout, 0⟩ ⟨resFileFor pdLayout, 0⟩
    [⟨(⟨resFileFor pdLayout, 0⟩ : XmlResource).file, 42⟩]
    [] 0 rfl rfl rfl rfl (by decide)

/-- Inversion for the 9-patch staging step. -/
theorem stagePng_inv (env : Env) (extension : Str) (image : Image)
    (stage : Image × Option NinePatch)
    (h : stagePng env extension image = some stage) :
    (extension = str "9.png" ∧
      ∃ np, env.ninePatchCreate image = some np ∧
        stage = (stripBorder image, some np)) ∨
    (extension ≠ str "9.png" ∧ stage = (image, none)) := by
  by_cases hext : extension = str "9.png"
  · rw [stagePng, if_pos hext] at h
    rcases hnp : env.ninePatchCreate image with _ | np <;> rw [hnp] at h
    · exact Option.noConfusion h
    · have h2 : (some (stripBorder image, some np) :
          Option (Image × Option NinePatch)) = some stage := h
      rw [Option.some_inj] at h2
      exact Or.inl ⟨hext, np, rfl, h2.symm⟩
  · rw [stagePng, if_neg hext, Option.some_inj] at h
    exact Or.inr ⟨hext, h.symm⟩

/-- Inversion for `compilePng`: a successful run decoded the content,
staged the raster (stripping the border exactly when the extension is
`9.png` and 9-patch construction succeeded), re-encoded it, and wrote
a single-file envelope around the selected payload. -/
theorem compilePng_inv (env : Env) (options : CompileOptions)
    (pathData : ResourcePathData) (outputPath : Str) (e : Entry)
    (h : compilePng env options pathData outputPath = some e) :
    ∃ content image stagedImage ninePatch crunched,
      env.readFile pathData.source = some content ∧
      env.readPng content = some image ∧
      ((pathData.extension = str "9.png" ∧
        (∃ np, env.ninePatchCreate image = some np ∧
          ninePatch = some np) ∧
        stagedImage = stripBorder image) ∨
       (pathData.extension ≠ str "9.png" ∧ ninePatch = none ∧
        stagedImage = image)) ∧
      env.writePng stagedImage ninePatch = some crunched ∧
      env.archiveOk outputPath = true ∧
      e = ⟨outputPath,
        [Chunk.le32 1, Chunk.compiledFile (resFileFor pathData),
         Chunk.data (if ninePatch.isSome = true ∨
             crunched.length ≤ (env.pngFilter content).length then
           crunched
         else
           env.pngFilter content)]⟩ := by
  rw [compilePng] at h
  simp only [Option.bind_eq_bind] at h
  rcases hc : env.readFile pathData.source with _ | content <;> rw [hc] at h
  · rw [Option.none_bind] at h
    exact Option.noConfusion h
  · rw [Option.some_bind] at h
    rcases hi : env.readPng content with _ | image <;> rw [hi] at h
    · rw [Option.none_bind] at h
      exact Option.noConfusion h
    · rw [Option.some_bind] at h
      rcases hst : stagePng env pathData.extension image with _ | stage <;>
          rw [hst] at h
      · rw [Option.none_bind] at h
        exact Option.noConfusion h
      · rw [Option.some_bind] at h
        rcases hcr : env.writePng stage.1 stage.2 with _ | crunched <;>
            rw [hcr] at h
        · rw [Option.none_bind] at h
          exact Option.noConfusion h
        · rw [Option.some_bind] at h
          have htail : writeHeaderAndBufferToWriter env outputPath
              (resFileFor pathData)
              (if stage.2.isSome = true ∨
                  crunched.length ≤ (env.pngFilter content).length then
                crunched
              else env.pngFilter content) = some e := by
            cases hv : options.verbose <;> rw [hv] at h
            · rw [if_neg Bool.false_ne_true, Option.some_bind] at h
              exact h
            · rw [if_pos rfl] at h
              rcases hl : env.legacyProcess content with _ | u <;>
                  rw [hl] at h
              · rw [Option.none_bind] at h
                exact Option.noConfusion h
              · rw [Option.some_bind] at h
                exact h
          rw [writeHeaderAndBufferToWriter] at htail
          cases hb : env.archiveOk outputPath <;> rw [hb] at htail
          · exact Option.noConfusion htail
          · rw [if_pos rfl, Option.some_inj] at htail
            rcases stagePng_inv env pathData.extension image stage hst with
              ⟨hext, np, hnp, hstage⟩ | ⟨hext, hstage⟩
            · subst hstage
              exact ⟨content, image, stripBorder image, some np, crunched,
                rfl, hi, Or.inl ⟨hext, ⟨np, hnp, rfl⟩, rfl⟩, hcr, rfl,
                htail.symm⟩
            · subst hstage
              exact ⟨content, image, image, none, crunched, rfl, hi,
                Or.inr ⟨hext, rfl, rfl⟩, hcr, rfl, htail.symm⟩

/-- C2: for every successfully compiled PNG input, if a 9-patch was
constructed (extension `9.png`) the payload is the re-encoded buffer
regardless of sizes; otherwise the re-encoded buffer is used exactly
when its byte count is at most the filtered-original byte count (ties
prefer re-encoded), and when the filtered original wins, the payload is
the chunk filter's output over the original content. -/
theorem c2_png_payload_selection (env : Env) (options : CompileOptions)
    (pathData : ResourcePathData) (outputPath : Str) (e : Entry)
    (hcomp : compilePng env options pathData outputPath = some e) :
    ∃ content image crunched payload,
      env.readFile pathData.source = some content ∧
      env.readPng content = some image ∧
      e.chunks = [Chunk.le32 1, Chunk.compiledFile (resFileFor pathData),
        Chunk.data payload] ∧
      ((pathData.extension = str "9.png" ∧ payload = crunched ∧
        ∃ np, env.ninePatchCreate image = some np ∧
          env.writePng (stripBorder image) (some np) = some crunched) ∨
       (pathData.extension ≠ str "9.png" ∧
        env.writePng image none = some crunched ∧
        payload = (if crunched.length ≤ (env.pngFilter content).length
          then crunched else env.pngFilter content))) := by
  obtain ⟨content, image, stagedImage, ninePatch, crunched, hc, hi,
    hcase, hcr, hb, he⟩ := compilePng_inv env options pathData outputPath e hcomp
  rcases hcase with ⟨hext, ⟨np, hnp, hnpe⟩, hstage⟩ | ⟨hext, hnpe, hstage⟩
  · subst hnpe; subst hstage
    refine ⟨content, image, crunched, crunched, hc, hi, ?_,
      Or.inl ⟨hext, rfl, np, hnp, hcr⟩⟩
    rw [he]
    simp
  · subst hnpe; subst hstage
    refine ⟨content, stagedImage, crunched,
      (if crunched.length ≤ (env.pngFilter content).length then crunched
       else env.pngFilter content), hc, hi, ?_,
      Or.inr ⟨hext, hcr, rfl⟩⟩
    rw [he]
    simp

/-- Witness for C2 at a non-9-patch PNG compiled against `testEnv`
(the re-encoded buffer is the smaller one there). -/
theorem c2_png_payload_selection_witness :
    ∃ content image crunched payload,
      testEnv.readFile (str "res/drawable/photo.png") = some content ∧
      testEnv.readPng content = some image ∧
      (Entry.mk (str "o")
          [Chunk.le32 1,
           Chunk.compiledFile (resFileFor
             ⟨str "res/drawable/photo.png", str "drawable", str "photo",
               str "png", []⟩),
           Chunk.data [5]]).chunks =
        [Chunk.le32 1,
         Chunk.compiledFile (resFileFor
           ⟨str "res/drawable/photo.png", str "drawable", str "photo",
             str "png", []⟩),
         Chunk.data payload] ∧
      (((⟨str "res/drawable/photo.png", str "drawable", str "photo",
          str "png", []⟩ : ResourcePathData).extension = str "9.png" ∧
        payload = crunched ∧
        ∃ np, testEnv.ninePatchCreate image = some np ∧
          testEnv.writePng (stripBorder image) (some np) =
            some crunched) ∨
       ((⟨str "res/drawable/photo.png", str "drawable", str "photo",
          str "png", []⟩ : ResourcePathData).extension ≠ str "9.png" ∧
        testEnv.writePng image none = some crunched ∧
        payload = (if crunched.length ≤
            (testEnv.pngFilter content).length
          then crunched else testEnv.pngFilter content))) :=
  c2_png_payload_selection testEnv {}
    ⟨str "res/drawable/photo.png", str "drawable", str "photo",
      str "png", []⟩
    (str "o")
    (Entry.mk (str "o")
      [Chunk.le32 1,
       Chunk.compiledFile (resFileFor
         ⟨str "res/drawable/photo.png", str "drawable", str "photo",
           str "png", []⟩),
       Chunk.data [5]])
    (by decide)

/-- C8: for every 9-patch input that compiles successfully, the image
that gets re-encoded and embedded is the source raster with a 1-pixel
border stripped: width and height are each two less than the source
dimensions, the row array is shifted up by one, and each surviving row
is shifted left by one RGBA pixel — and the payload is that re-encoded
buffer regardless of any size comparison. -/
theorem c8_ninepatch_strip (env : Env) (options : CompileOptions)
    (pathData : ResourcePathData) (outputPath : Str) (e : Entry)
    (h9 : pathData.extension = str "9.png")
    (hcomp : compilePng env options pathData outputPath = some e) :
    ∃ content image np crunched,
      env.readFile pathData.source = some content ∧
      env.readPng content = some image ∧
      env.ninePatchCreate image = some np ∧
      env.writePng (stripBorder image) (some np) = some crunched ∧
      (stripBorder image).width = image.width - 2 ∧
      (stripBorder image).height = image.height - 2 ∧
      (∀ i, i < image.height - 2 →
        (stripBorder image).rows[i]? =
          (image.rows[i + 1]?).map
            (fun r => (r.drop 4).take ((image.width - 2) * 4))) ∧
      e.chunks = [Chunk.le32 1, Chunk.compiledFile (resFileFor pathData),
        Chunk.data crunched] := by
  obtain ⟨content, image, stagedImage, ninePatch, crunched, hc, hi,
    hcase, hcr, hb, he⟩ :=
    compilePng_inv env options pathData outputPath e hcomp
  rcases hcase with ⟨hext, ⟨np, hnp, hnpe⟩, hstage⟩ | ⟨hext, hnpe, hstage⟩
  · subst hnpe; subst hstage
    refine ⟨content, image, np, crunched, hc, hi, hnp, hcr, rfl, rfl,
      ?_, ?_⟩
    · intro i hilt
      simp only [stripBorder]
      rw [List.getElem?_map, List.getElem?_take_of_lt hilt,
        List.getElem?_drop, Nat.add_comm 1 i]
    · rw [he]
      simp
  · exact absurd h9 hext

/-- A classified 9-patch input, used by witnesses. -/
def pd9hdpi : ResourcePathData :=
  ⟨str "res/drawable-hdpi/icon.9.png", str "drawable", str "icon",
    str "9.png", str "hdpi"⟩

/-- Witness for C8 at a concrete 9-patch input compiled against
`testEnv`. -/
theorem c8_ninepatch_strip_witness :
    ∃ content image np crunched,
      testEnv.readFile pd9hdpi.source = some content ∧
      testEnv.readPng content = some image ∧
      testEnv.ninePatchCreate image = some np ∧
      testEnv.writePng (stripBorder image) (some np) = some crunched ∧
      (stripBorder image).width = image.width - 2 ∧
      (stripBorder image).height = image.height - 2 ∧
      (∀ i, i < image.height - 2 →
        (stripBorder image).rows[i]? =
          (image.rows[i + 1]?).map
            (fun r => (r.drop 4).take ((image.width - 2) * 4))) ∧
      (Entry.mk (str "o9")
          [Chunk.le32 1, Chunk.compiledFile (resFileFor pd9hdpi),
           Chunk.data [5]]).chunks =
        [Chunk.le32 1, Chunk.compiledFile (resFileFor pd9hdpi),
         Chunk.data crunched] :=
  c8_ninepatch_strip testEnv {} pd9hdpi (str "o9")
    (Entry.mk (str "o9")
      [Chunk.le32 1, Chunk.compiledFile (resFileFor pd9hdpi),
       Chunk.data [5]])
    rfl (by decide)

/-- The driver loop's sticky error flag is set exactly when some input
fails. -/
theorem compileAll_error_iff (env : Env) (options : CompileOptions)
    (inputs : List ResourcePathData) :
    (compileAll env options inputs).1 = true ↔
      ∃ pd ∈ inputs, runInput env options pd = none := by
  induction inputs with
  | nil => simp [compileAll]
  | cons pd rest ih =>
    simp only [compileAll, Bool.or_eq_true, Option.isNone_iff_eq_none, ih]
    constructor
    · rintro (h | ⟨q, hq, hfail⟩)
      · exact ⟨pd, List.mem_cons_self pd rest, h⟩
      · exact ⟨q, List.mem_cons_of_mem pd hq, hfail⟩
    · rintro ⟨q, hq, hfail⟩
      rcases List.mem_cons.mp hq with rfl | hmem
      · exact Or.inl hfail
      · exact Or.inr ⟨q, hmem, hfail⟩

/-- The driver loop writes exactly the successful inputs' entries, in
input order (so every input is run even after a failure). -/
theorem compileAll_entries (env : Env) (options : CompileOptions)
    (inputs : List ResourcePathData) :
    (compileAll env options inputs).2 =
      inputs.filterMap (runInput env options) := by
  induction inputs with
  | nil => rfl
  | cons pd rest ih =>
    simp only [compileAll, List.filterMap_cons]
    rcases hr : runInput env options pd with _ | entry <;>
        simp [hr, ih]

/-- C6: for every batch of classified inputs, the driver runs every
input (the entries written are exactly the successful inputs' entries,
in order — a failure does not stop the loop), and its exit status is 1
exactly when at least one input failed. -/
theorem c6_sticky_error_aggregation (env : Env)
    (options : CompileOptions) (args : List Str)
    (inputs : List ResourcePathData)
    (hclass : classifyArgs env.parseConfig args = some inputs)
    (hw : env.createWriterOk = true) :
    ((compileExplicit env options args).1 = 1 ↔
      ∃ pd ∈ inputs, runInput env options pd = none) ∧
    (compileExplicit env options args).2 =
      inputs.filterMap (runInput env options) := by
  simp only [compileExplicit, hclass, hw, if_true]
  refine ⟨?_, compileAll_entries env options inputs⟩
  rw [← compileAll_error_iff env options inputs]
  cases hres : (compileAll env options inputs).1 <;> simp [hres]

/-- A classified values input whose source `testEnvBadRead` cannot
read. -/
def pdBadValues : ResourcePathData :=
  ⟨str "res/values/bad.xml", str "values", str "bad", str "xml", []⟩

/-- Witness for C6: a two-input batch whose first input fails to read
still compiles the second input and exits 1. -/
theorem c6_sticky_error_aggregation_witness :
    ((compileExplicit testEnvBadRead {}
        [str "res/values/bad.xml", str "res/layout/main.xml"]).1 = 1 ↔
      ∃ pd ∈ [pdBadValues, pdLayout],
        runInput testEnvBadRead {} pd = none) ∧
    (compileExplicit testEnvBadRead {}
        [str "res/values/bad.xml", str "res/layout/main.xml"]).2 =
      [pdBadValues, pdLayout].filterMap (runInput testEnvBadRead {}) :=
  c6_sticky_error_aggregation testEnvBadRead {}
    [str "res/values/bad.xml", str "res/layout/main.xml"]
    [pdBadValues, pdLayout] (by decide) rfl

/-- In explicit mode, one unclassifiable argument makes the whole
classification phase fail. -/
theorem classifyArgs_eq_none (parseConfig : Str → Bool)
    (args : List Str) (a : Str) (ha : a ∈ args)
    (hfail : extractResourcePathData parseConfig a = none) :
    classifyArgs parseConfig args = none := by
  induction args with
  | nil => simp at ha
  | cons x rest ih =>
    rcases List.mem_cons.mp ha with rfl | hmem
    · rw [classifyArgs, hfail]
    · rw [classifyArgs]
      rcases hx : extractResourcePathData parseConfig x with _ | pd
      · rfl
      · rw [ih hmem]
        rfl

/-- C7: in explicit mode every supplied path is classified before any
compilation begins — if any path fails classification the batch exits
1 with no archive entry written, and when the batch proceeds, every
supplied path classified successfully. -/
theorem c7_explicit_classification_abort (env : Env)
    (options : CompileOptions) (args : List Str) :
    (∀ a ∈ args, extractResourcePathData env.parseConfig a = none →
      compileExplicit env options args = (1, [])) ∧
    (∀ inputs, classifyArgs env.parseConfig args = some inputs →
      ∀ a ∈ args,
        (extractResourcePathData env.parseConfig a).isSome = true) := by
  constructor
  · intro a ha hfail
    rw [compileExplicit, classifyArgs_eq_none env.parseConfig args a ha hfail]
  · intro inputs hinputs a ha
    rcases hx : extractResourcePathData env.parseConfig a with _ | pd
    · rw [classifyArgs_eq_none env.parseConfig args a ha hx] at hinputs
      exact Option.noConfusion hinputs
    · rfl

/-- Witness for C7: a batch holding one malformed path and one valid
path aborts with exit 1 and writes nothing. -/
theorem c7_explicit_classification_abort_witness :
    compileExplicit testEnv {} [str "x", str "res/layout/main.xml"] =
      (1, []) :=
  (c7_explicit_classification_abort testEnv {}
      [str "x", str "res/layout/main.xml"]).1
    (str "x") (by decide) (by decide)

/-- A classified non-9-patch PNG input, used by witnesses. -/
def pdPhoto : ResourcePathData :=
  ⟨str "res/drawable/photo.png", str "drawable", str "photo",
    str "png", []⟩

/-- C10: with verbose off, `compilePng` never consults the legacy PNG
processor (its result is independent of that collaborator); with
verbose on, the legacy processor runs after payload selection and its
failure fails the input; hence some PNG input compiles with verbose
off but fails with verbose on. -/
theorem c10_verbose_legacy_processing :
    (∀ (env : Env) (f : Str → Option (List Nat))
        (options : CompileOptions) (pathData : ResourcePathData)
        (outputPath : Str), options.verbose = false →
      compilePng { env with legacyProcess := f } options pathData
          outputPath =
        compilePng env options pathData outputPath) ∧
    (∀ (env : Env) (options : CompileOptions)
        (pathData : ResourcePathData) (outputPath : Str)
        (content : Str), options.verbose = true →
      env.readFile pathData.source = some content →
      env.legacyProcess content = none →
      compilePng env options pathData outputPath = none) ∧
    (∃ (env : Env) (options : CompileOptions)
        (pathData : ResourcePathData) (outputPath : Str),
      options.verbose = false ∧
      (compilePng env options pathData outputPath).isSome = true ∧
      compilePng env { options with verbose := true } pathData
        outputPath = none) := by
  refine ⟨?_, ?_, ?_⟩
  · intro env f options pathData outputPath hv
    simp only [compilePng, hv, Bool.false_eq_true, if_false]
    rfl
  · intro env options pathData outputPath content hv hread hleg
    rw [compilePng]
    simp only [Option.bind_eq_bind]
    rw [hread, Option.some_bind]
    rcases hi : env.readPng content with _ | image
    · rw [Option.none_bind]
    · rw [Option.some_bind]
      rcases hst : stagePng env pathData.extension image with _ | stage
      · rw [Option.none_bind]
      · rw [Option.some_bind]
        rcases hcr : env.writePng stage.1 stage.2 with _ | crunched
        · rw [Option.none_bind]
        · rw [Option.some_bind, hv, if_pos rfl, hleg, Option.none_bind]
  · exact ⟨testEnv, {}, pdPhoto, str "o", rfl, by decide, by decide⟩

/-- Witness for C10: with `testEnv` (whose legacy processor always
fails) the legacy collaborator is irrelevant under verbose off, and a
photo input fails under verbose on. -/
theorem c10_verbose_legacy_processing_witness :
    compilePng { testEnv with legacyProcess := fun _ => some [] } {}
        pdPhoto (str "o") =
      compilePng testEnv {} pdPhoto (str "o") ∧
    compilePng testEnv { verbose := true } pdPhoto (str "o") = none :=
  ⟨c10_verbose_legacy_processing.1 testEnv (fun _ => some []) {}
      pdPhoto (str "o") rfl,
   c10_verbose_legacy_processing.2.1 testEnv { verbose := true }
     pdPhoto (str "o") [] rfl rfl rfl⟩

end aapt
